import Mathlib

/-!
Verification of the route-planning and weather services of the roadtrippy
repository.  The embedded functions follow `route_agent/route_planning_service.py`,
`route_agent/agent.py` and `weather_agent/weather_service.py`.  Real-valued
quantities (coordinates, distances in meters, temperatures) are modelled as
rationals; external HTTP collaborators (geocoding, routing, reverse geocoding,
polyline decoding, the geodesic distance function) are parameters of the
embedded functions, constrained only at their interface.
-/

namespace Roadtrippy

/-- A geographic coordinate, `(latitude, longitude)`. -/
abbrev Coord : Type := ℚ × ℚ

/-- `min(range(len(distances)), key=lambda i: abs(distances[i] - current_target))`
from `_find_interval_points`: Python's `min` keeps the first element whose key
is strictly smaller than the current best, so ties go to the earlier index. -/
def closest_index (distances : List ℚ) (target : ℚ) : ℕ :=
  (List.range distances.length).foldl
    (fun best i =>
      if |distances.getD i 0 - target| < |distances.getD best 0 - target| then i else best) 0

/-- Step-indexed semantics of the `while current_target < total_distance` loop of
`_find_interval_points`.  Each unit of fuel allows one loop iteration; the loop
body appends `(lat, lon, distances[closest_index])` and advances the target by
one interval.  When the fuel is at least the number of iterations the Python
loop performs, the result is exactly the Python loop's result. -/
def findLoop (coords : List Coord) (distances : List ℚ) (interval total : ℚ) :
    ℚ → ℕ → List (ℚ × ℚ × ℚ)
  | _, 0 => []
  | target, fuel + 1 =>
    if target < total then
      ((coords.getD (closest_index distances target) (0, 0)).1,
        (coords.getD (closest_index distances target) (0, 0)).2,
        distances.getD (closest_index distances target) 0) ::
        findLoop coords distances interval total (target + interval) fuel
    else []

/-- Fuel sufficient for `findLoop` when `0 < interval`: the Python loop runs
once per target in `interval, 2*interval, ...` below `total`, which is fewer
than `⌈total / interval⌉` iterations.  For `interval ≤ 0` the Python loop does
not terminate at all, so no fuel value reproduces it; the fuel value here is
then irrelevant to any claim about the source. -/
def sampleFuel (interval total : ℚ) : ℕ := (Int.ceil (total / interval)).toNat

/-- `_find_interval_points(coords, distances, interval_meters)`: guard clause
(`not coords or not distances or len(coords) != len(distances)` returns `[]`),
then the sampling loop starting from `current_target = interval_meters`, with
`total_distance = distances[-1]`. -/
def find_interval_points (coords : List Coord) (distances : List ℚ)
    (interval_meters : ℚ) : List (ℚ × ℚ × ℚ) :=
  if coords = [] ∨ distances = [] ∨ coords.length ≠ distances.length then []
  else
    findLoop coords distances interval_meters (distances.getLastD 0) interval_meters
      (sampleFuel interval_meters (distances.getLastD 0))

/-- The accumulation loop of `_calculate_distances`: for each coordinate after
the first, append `distances[-1] + geodesic(coords[i-1], coords[i]).meters`.
The geodesic distance is the external parameter `d`. -/
def accumDistances (d : Coord → Coord → ℚ) : Coord → List Coord → ℚ → List ℚ
  | _, [], _ => []
  | prev, c :: rest, acc => (acc + d prev c) :: accumDistances d c rest (acc + d prev c)

/-- `_calculate_distances(coords)`: returns `[]` for fewer than two coordinates,
otherwise `[0.0]` followed by the cumulative sums of consecutive geodesic
distances. -/
def calculate_distances (d : Coord → Coord → ℚ) (coords : List Coord) : List ℚ :=
  match coords with
  | [] => []
  | [_] => []
  | c :: rest => 0 :: accumDistances d c rest 0

/-- Outcome of one `pelias_reverse` collaborator call, as `_reverse_geocode`
distinguishes them: an exception (`failure`), a response without features
(`noFeatures`), or the `properties` dict of the first feature with its four
administrative fields, each possibly missing (`none`) or empty. -/
inductive ReverseResult : Type where
  | failure : ReverseResult
  | noFeatures : ReverseResult
  | features (locality county region country : Option String) : ReverseResult

/-- Python's `a or b or ...` chain over dict lookups: the first value that is
neither missing nor the empty string wins. -/
def firstTruthy : List (Option String) → Option String
  | [] => none
  | none :: rest => firstTruthy rest
  | some s :: rest => if s = "" then firstTruthy rest else some s

/-- Round-half-to-even at integer precision, the rounding Python's fixed-point
formatting (`:.4f`, `round(x, 1)`) applies to the exact rational value of a
double. -/
def roundHalfEven (q : ℚ) : ℤ :=
  if q - Int.floor q < 1/2 then Int.floor q
  else if 1/2 < q - Int.floor q then Int.floor q + 1
  else if Int.floor q % 2 = 0 then Int.floor q else Int.floor q + 1

/-- Left-pad a digit string with zeros to width `w`. -/
def padZeros (s : String) (w : ℕ) : String :=
  String.mk (List.replicate (w - s.length) '0') ++ s

/-- Python's `f"{q:.4f}"`: the value rounded half-to-even to four decimal
places, rendered with exactly four fractional digits, with a sign taken from
the input value. -/
def formatFixed4 (q : ℚ) : String :=
  (if q < 0 then "-" else "") ++
    toString ((roundHalfEven (q * 10000)).natAbs / 10000) ++ "." ++
    padZeros (toString ((roundHalfEven (q * 10000)).natAbs % 10000)) 4

/-- The fallback string `f"({lat:.4f}, {lon:.4f})"` of `_reverse_geocode`. -/
def coordFallback (lat lon : ℚ) : String :=
  "(" ++ formatFixed4 lat ++ ", " ++ formatFixed4 lon ++ ")"

/-- `_reverse_geocode(lat, lon)` given the collaborator's response: `None` on
an exception or a featureless response; otherwise the first truthy field of
`locality or county or region or country or f"({lat:.4f}, {lon:.4f})"`. -/
def reverse_geocode (resp : ReverseResult) (lat lon : ℚ) : Option String :=
  match resp with
  | .failure => none
  | .noFeatures => none
  | .features loc cty reg ctry =>
      some ((firstTruthy [loc, cty, reg, ctry]).getD (coordFallback lat lon))

/-- The place-collection loop of `get_places_along_route`:
`for lat, lon, _ in interval_points: if place_name: places.append(place_name)`.
A falsy result (`None` or the empty string) is skipped. -/
def placesLoop (rg : Coord → ReverseResult) : List (ℚ × ℚ × ℚ) → List String
  | [] => []
  | (lat, lon, _) :: rest =>
    match reverse_geocode (rg (lat, lon)) lat lon with
    | none => placesLoop rg rest
    | some s => if s = "" then placesLoop rg rest else s :: placesLoop rg rest

/-- The external collaborators of `RouteService`, one field per HTTP or
library call: forward geocoding, route fetching (returning the encoded
geometry string), polyline decoding (which may raise), the geodesic segment
distance, and reverse geocoding. -/
structure Collabs : Type where
  geocode : String → Option Coord
  fetchRoute : Coord → Coord → Option String
  decode : String → Except String (List Coord)
  segDist : Coord → Coord → ℚ
  reverse : Coord → ReverseResult

/-- `_decode_polyline(encoded_polyline)`: any exception from the decoding
library is caught and yields the empty coordinate list. -/
def decode_polyline (dec : String → Except String (List Coord)) (s : String) :
    List Coord :=
  match dec s with
  | .error _ => []
  | .ok cs => cs

/-- `get_places_along_route(start_place, end_place, interval_km)`: geocode both
endpoints, fetch the route, decode its geometry, accumulate distances, sample
at `interval_km * 1000` meters, and resolve each sample point to a name; every
early failure returns the empty list. -/
def get_places_along_route (c : Collabs) (startPlace endPlace : String)
    (interval_km : ℚ) : List String :=
  match c.geocode startPlace, c.geocode endPlace with
  | some sc, some ec =>
    match c.fetchRoute sc ec with
    | none => []
    | some geometry =>
      let decoded := decode_polyline c.decode geometry
      if decoded = [] then []
      else
        let distances := calculate_distances c.segDist decoded
        if distances = [] then []
        else placesLoop c.reverse (find_interval_points decoded distances (interval_km * 1000))
  | _, _ => []

/-- The `status` field of `get_route_places` in `route_agent/agent.py` on the
configured path: `"error"` exactly when `get_places_along_route` returned no
places. -/
def get_route_places_status (c : Collabs) (startPlace endPlace : String)
    (interval_km : ℚ) : String :=
  if get_places_along_route c startPlace endPlace interval_km = [] then "error"
  else "success"

/-- One entry of the forecast response's `list`, with the fields
`_parse_forecast_data` reads: the `dt` timestamp, `main.temp`, and the first
weather description.  Missing JSON fields are `none`. -/
structure Period : Type where
  dt : Option ℤ
  temp : Option ℚ
  descr : String

/-- `datetime.fromtimestamp(dt).date()`, as a day number (for a fixed UTC
offset the offset shifts the timestamp, which preserves the properties at
stake; day numbers compare exactly as dates do). -/
def periodDate (ts : ℤ) : ℤ := ts.fdiv 86400

/-- The day a period is bucketed under in `_parse_forecast_data`, or `none`
when the period is skipped: `if not dt_timestamp: continue` drops a missing or
zero timestamp, `if temp is None: continue` drops a missing temperature. -/
def periodKey (p : Period) : Option ℤ :=
  match p.dt with
  | none => none
  | some ts =>
    if ts = 0 then none
    else
      match p.temp with
      | none => none
      | some _ => some (periodDate ts)

/-- The `temps` list accumulated for day `d`, in iteration order. -/
def dayTemps (ps : List Period) (d : ℤ) : List ℚ :=
  ps.filterMap fun p =>
    match periodKey p with
    | some k => if k = d then p.temp else none
    | none => none

/-- The distinct keys of the `daily_forecasts` dict. -/
def dayKeys (ps : List Period) : List ℤ :=
  (ps.filterMap periodKey).dedup

/-- `round(x, 1)`: rounding half-to-even at one decimal place. -/
def round1 (q : ℚ) : ℚ := (roundHalfEven (q * 10) : ℚ) / 10

/-- The `(date, min_temp_celsius, max_temp_celsius)` part of the
`processed_daily_summaries` of `_parse_forecast_data`: days sorted ascending
(`sorted(daily_forecasts.items())`), each with `round(min(temps), 1)` and
`round(max(temps), 1)`; a day with no temperatures is skipped (the
`if not daily_data["temps"]: continue` guard).  The per-day description field
is not modelled: no claim concerns it. -/
def parse_daily_summaries (ps : List Period) : List (ℤ × ℚ × ℚ) :=
  (List.insertionSort (· ≤ ·) (dayKeys ps)).filterMap fun d =>
    match dayTemps ps d with
    | [] => none
    | t :: ts => some (d, round1 (ts.foldl min t), round1 (ts.foldl max t))

/-- A Python-falsy administrative field: missing (`None`) or the empty string. -/
def falsyField (o : Option String) : Prop := o = none ∨ o = some ""

instance (o : Option String) : Decidable (falsyField o) := by
  unfold falsyField; infer_instance

/-- Claim C7: for every pair of a CoordinateSequence and a DistanceSequence of
unequal lengths, the Sampler returns no samples (the guard clause of
`_find_interval_points` fires and the empty list is returned). -/
theorem sampler_length_mismatch_returns_no_samples
    (coords : List Coord) (distances : List ℚ) (interval : ℚ)
    (h : coords.length ≠ distances.length) :
    find_interval_points coords distances interval = [] := by
  unfold find_interval_points
  rw [if_pos (Or.inr (Or.inr h))]

theorem sampler_length_mismatch_witness :
    find_interval_points [((0 : ℚ), (0 : ℚ))] [0, 5] 1 = [] :=
  sampler_length_mismatch_returns_no_samples [(0, 0)] [0, 5] 1 (by decide)

/-- Claim C3 (divergence witness): with interval `0` and total distance `100`,
every amount of fuel is consumed without the loop guard ever failing — each
step re-enters the body, so the Python `while` loop of `_find_interval_points`
never terminates, and no `InputError` is ever signalled. -/
theorem interval_zero_loops_forever (fuel : ℕ) :
    (findLoop [((0 : ℚ), (0 : ℚ)), (1, 1)] [0, 100] 0 100 0 fuel).length = fuel := by
  induction fuel with
  | zero => rfl
  | succ n ih =>
    rw [findLoop, if_pos (by norm_num : (0 : ℚ) < 100)]
    simpa using ih

/-- Rounding half-to-even fixes every integer. -/
theorem roundHalfEven_intCast (n : ℤ) : roundHalfEven ((n : ℚ)) = n := by
  unfold roundHalfEven
  rw [Int.floor_intCast, sub_self, if_pos (by norm_num : (0 : ℚ) < 1/2)]

theorem formatFixed4_lat_ex : formatFixed4 (614991/10000 : ℚ) = "61.4991" := by
  have h : ((614991:ℚ)/10000 * 10000) = ((614991 : ℤ) : ℚ) := by norm_num
  unfold formatFixed4
  rw [h, roundHalfEven_intCast, if_neg (by norm_num : ¬ ((614991:ℚ)/10000 < 0))]
  decide

theorem formatFixed4_lon_ex : formatFixed4 (237871/10000 : ℚ) = "23.7871" := by
  have h : ((237871:ℚ)/10000 * 10000) = ((237871 : ℤ) : ℚ) := by norm_num
  unfold formatFixed4
  rw [h, roundHalfEven_intCast, if_neg (by norm_num : ¬ ((237871:ℚ)/10000 < 0))]
  decide

/-- Claim C6: the Resolver picks the first non-empty administrative field in
the order locality, county, region, country; when all four are missing or
empty the result is the coordinate formatted to four decimal places, and in
particular coordinate `(61.4991, 23.7871)` yields `"(61.4991, 23.7871)"`. -/
theorem resolver_precedence_and_fallback
    (lat lon : ℚ) (loc cty reg ctry : Option String) (s : String) (hs : s ≠ "") :
    (loc = some s →
      reverse_geocode (.features loc cty reg ctry) lat lon = some s) ∧
    (falsyField loc → cty = some s →
      reverse_geocode (.features loc cty reg ctry) lat lon = some s) ∧
    (falsyField loc → falsyField cty → reg = some s →
      reverse_geocode (.features loc cty reg ctry) lat lon = some s) ∧
    (falsyField loc → falsyField cty → falsyField reg → ctry = some s →
      reverse_geocode (.features loc cty reg ctry) lat lon = some s) ∧
    (falsyField loc → falsyField cty → falsyField reg → falsyField ctry →
      reverse_geocode (.features loc cty reg ctry) lat lon =
        some (coordFallback lat lon)) ∧
    reverse_geocode (.features none none none none) (614991/10000) (237871/10000) =
      some "(61.4991, 23.7871)" := by
  refine ⟨?_, ?_, ?_, ?_, ?_, ?_⟩
  · intro h1
    subst h1
    simp [reverse_geocode, firstTruthy, hs]
  · rintro (rfl | rfl) rfl <;> simp [reverse_geocode, firstTruthy, hs]
  · rintro (rfl | rfl) (rfl | rfl) rfl <;> simp [reverse_geocode, firstTruthy, hs]
  · rintro (rfl | rfl) (rfl | rfl) (rfl | rfl) rfl <;>
      simp [reverse_geocode, firstTruthy, hs]
  · rintro (rfl | rfl) (rfl | rfl) (rfl | rfl) (rfl | rfl) <;>
      simp [reverse_geocode, firstTruthy]
  · show some (Option.getD _ _) = _
    rw [show firstTruthy [none, none, none, none] = none from rfl]
    rw [Option.getD_none, coordFallback, formatFixed4_lat_ex, formatFixed4_lon_ex]
    rfl

theorem resolver_precedence_witness :
    ((some "Visby" = some "Visby" →
      reverse_geocode (.features (some "Visby") none none none) 0 0 = some "Visby") ∧
    (falsyField (some "Visby") → none = some "Visby" →
      reverse_geocode (.features (some "Visby") none none none) 0 0 = some "Visby") ∧
    (falsyField (some "Visby") → falsyField none → none = some "Visby" →
      reverse_geocode (.features (some "Visby") none none none) 0 0 = some "Visby") ∧
    (falsyField (some "Visby") → falsyField none → falsyField none →
      none = some "Visby" →
      reverse_geocode (.features (some "Visby") none none none) 0 0 = some "Visby") ∧
    (falsyField (some "Visby") → falsyField none → falsyField none →
      falsyField none →
      reverse_geocode (.features (some "Visby") none none none) 0 0 =
        some (coordFallback 0 0)) ∧
    reverse_geocode (.features none none none none) (614991/10000) (237871/10000) =
      some "(61.4991, 23.7871)") :=
  resolver_precedence_and_fallback 0 0 (some "Visby") none none none "Visby"
    (by decide)

/-- The fallback string always starts with a parenthesis, so it is never the
empty (falsy) string and the collection loop never drops it. -/
theorem coordFallback_ne_empty (lat lon : ℚ) : coordFallback lat lon ≠ "" := by
  intro h
  have hdata := congrArg String.data h
  rw [coordFallback] at hdata
  simp [String.data_append] at hdata

/-- The place list never has more entries than there are sample points. -/
theorem placesLoop_length_le (rg : Coord → ReverseResult) :
    ∀ pts : List (ℚ × ℚ × ℚ), (placesLoop rg pts).length ≤ pts.length := by
  intro pts
  induction pts with
  | nil => simp [placesLoop]
  | cons p rest ih =>
    obtain ⟨lat, lon, dd⟩ := p
    cases hr : reverse_geocode (rg (lat, lon)) lat lon with
    | none =>
      simp only [placesLoop, hr, List.length_cons]
      exact le_trans ih (Nat.le_succ _)
    | some s =>
      by_cases hs : s = ""
      · simp only [placesLoop, hr, if_pos hs, List.length_cons]
        exact le_trans ih (Nat.le_succ _)
      · simp only [placesLoop, hr, if_neg hs, List.length_cons]
        exact Nat.succ_le_succ ih

/-- A point whose resolution comes back `None` is skipped by the collection
loop; the rest of the list is still processed. -/
theorem placesLoop_cons_of_none (rg : Coord → ReverseResult)
    (lat lon dd : ℚ) (rest : List (ℚ × ℚ × ℚ))
    (h : reverse_geocode (rg (lat, lon)) lat lon = none) :
    placesLoop rg ((lat, lon, dd) :: rest) = placesLoop rg rest := by
  simp only [placesLoop, h]

/-- A point whose resolution comes back as a non-empty name contributes that
name, in order, before the rest of the list. -/
theorem placesLoop_cons_of_some (rg : Coord → ReverseResult)
    (lat lon dd : ℚ) (rest : List (ℚ × ℚ × ℚ)) (s : String)
    (h : reverse_geocode (rg (lat, lon)) lat lon = some s) (hs : s ≠ "") :
    placesLoop rg ((lat, lon, dd) :: rest) = s :: placesLoop rg rest := by
  simp only [placesLoop, h, if_neg hs]

/-- Claim C4 (counterexample input): a reverse-geocode collaborator that
raises an exception at latitude `3` and returns a locality everywhere else. -/
def rgEx : Coord → ReverseResult := fun p =>
  if p.1 = 3 then .failure else .features (some "Visby") none none none

/-- Claim C4 (counterexample): with two sample points whose first
reverse-geocode call fails, `get_places_along_route`'s collection loop
produces one place for two sample points — the failed point is dropped, not
replaced by the numeric fallback, so the output does not contain exactly one
PlaceName per SamplePoint. -/
theorem places_not_one_per_sample :
    ¬ ((placesLoop rgEx [(3, 4, 0), (7, 8, 40000)]).length =
        ([(3, 4, 0), (7, 8, 40000)] : List (ℚ × ℚ × ℚ)).length) := by
  have e1 : reverse_geocode (rgEx (3, 4)) 3 4 = none := by
    rw [show rgEx (3, 4) = .failure from if_pos rfl]
    rfl
  have e2 : reverse_geocode (rgEx (7, 8)) 7 8 = some "Visby" := by
    rw [show rgEx (7, 8) = .features (some "Visby") none none none from
      if_neg (by norm_num : (7 : ℚ) ≠ 3)]
    simp [reverse_geocode, firstTruthy]
  rw [placesLoop_cons_of_none rgEx 3 4 0 _ e1,
    placesLoop_cons_of_some rgEx 7 8 40000 [] "Visby" e2 (by decide)]
  simp [placesLoop]

/-- Claim C4 (amended): a reverse-geocode response that has features but no
usable name still yields a PlaceName for that point (the numeric coordinate
fallback); but a collaborator call that fails outright, or returns no
features, makes `_reverse_geocode` return `None` and the collection loop skip
that point, so a failed reverse-geocode shortens the place list by one entry
rather than aborting the query: the remaining points are still resolved, in
order, and the output has at most one PlaceName per SamplePoint. -/
theorem places_degrade_per_point
    (rg : Coord → ReverseResult) (lat lon dd : ℚ)
    (rest : List (ℚ × ℚ × ℚ)) (loc cty reg ctry : Option String) :
    (placesLoop rg ((lat, lon, dd) :: rest)).length ≤
      ((lat, lon, dd) :: rest : List (ℚ × ℚ × ℚ)).length ∧
    (reverse_geocode (rg (lat, lon)) lat lon = none →
      placesLoop rg ((lat, lon, dd) :: rest) = placesLoop rg rest) ∧
    (rg (lat, lon) = .features loc cty reg ctry →
      falsyField loc → falsyField cty → falsyField reg → falsyField ctry →
      placesLoop rg ((lat, lon, dd) :: rest) =
        coordFallback lat lon :: placesLoop rg rest) := by
  refine ⟨placesLoop_length_le rg _, ?_, ?_⟩
  · exact placesLoop_cons_of_none rg lat lon dd rest
  · intro hfeat f1 f2 f3 f4
    have hrev : reverse_geocode (rg (lat, lon)) lat lon =
        some (coordFallback lat lon) := by
      rw [hfeat]
      rcases f1 with rfl | rfl <;> rcases f2 with rfl | rfl <;>
        rcases f3 with rfl | rfl <;> rcases f4 with rfl | rfl <;>
        simp [reverse_geocode, firstTruthy]
    exact placesLoop_cons_of_some rg lat lon dd rest _ hrev
      (coordFallback_ne_empty lat lon)

/-- The accumulation loop appends one distance per remaining coordinate. -/
theorem accumDistances_length (d : Coord → Coord → ℚ) :
    ∀ (l : List Coord) (prev : Coord) (acc : ℚ),
      (accumDistances d prev l acc).length = l.length := by
  intro l
  induction l with
  | nil => intro prev acc; rfl
  | cons c rest ih =>
    intro prev acc
    simp only [accumDistances, List.length_cons, ih]

/-- With a nonnegative segment distance, every value the accumulation loop
appends is at least the running total it starts from. -/
theorem accumDistances_chain (d : Coord → Coord → ℚ) (hd : ∀ a b, 0 ≤ d a b) :
    ∀ (l : List Coord) (prev : Coord) (acc : ℚ),
      List.Chain (· ≤ ·) acc (accumDistances d prev l acc) := by
  intro l
  induction l with
  | nil => intro prev acc; exact List.Chain.nil
  | cons c rest ih =>
    intro prev acc
    exact List.Chain.cons (le_add_of_nonneg_right (hd prev c)) (ih c _)

/-- Claim C5: for every CoordinateSequence of length at least 2 and every
nonnegative segment-distance function, `_calculate_distances` returns a
DistanceSequence of the same length, whose first element is `0`, and which is
monotonically non-decreasing. -/
theorem distances_same_length_zero_start_monotone
    (d : Coord → Coord → ℚ) (coords : List Coord)
    (hd : ∀ a b, 0 ≤ d a b) (hlen : 2 ≤ coords.length) :
    (calculate_distances d coords).length = coords.length ∧
    (calculate_distances d coords).head? = some 0 ∧
    List.Chain' (· ≤ ·) (calculate_distances d coords) := by
  match coords, hlen with
  | c1 :: c2 :: rest, _ =>
    refine ⟨?_, rfl, ?_⟩
    · simp only [calculate_distances, List.length_cons, accumDistances_length]
    · show List.Chain (· ≤ ·) 0 (accumDistances d c1 (c2 :: rest) 0)
      exact accumDistances_chain d hd _ c1 0

/-- Witness segment distance: the taxicab distance between coordinates. -/
def taxicab : Coord → Coord → ℚ := fun a b => |b.1 - a.1| + |b.2 - a.2|

theorem distances_invariants_witness :
    (calculate_distances taxicab [(3, 4), (7, 9)]).length =
      ([(3, 4), (7, 9)] : List Coord).length ∧
    (calculate_distances taxicab [(3, 4), (7, 9)]).head? = some 0 ∧
    List.Chain' (· ≤ ·) (calculate_distances taxicab [(3, 4), (7, 9)]) :=
  distances_same_length_zero_start_monotone taxicab [(3, 4), (7, 9)]
    (fun a b => add_nonneg (abs_nonneg _) (abs_nonneg _)) (by decide)

/-- Python's `min(range(n), key=key)` (for `n > 0`; the fold start `0` is the
first element of the range, compared against itself in the first step). -/
def argminUpTo (key : ℕ → ℚ) (n : ℕ) : ℕ :=
  (List.range n).foldl (fun best i => if key i < key best then i else best) 0

theorem closest_index_eq_argminUpTo (distances : List ℚ) (target : ℚ) :
    closest_index distances target =
      argminUpTo (fun i => |distances.getD i 0 - target|) distances.length := rfl

theorem argminUpTo_succ (key : ℕ → ℚ) (n : ℕ) :
    argminUpTo key (n + 1) =
      if key n < key (argminUpTo key n) then n else argminUpTo key n := by
  unfold argminUpTo
  rw [List.range_succ, List.foldl_append, List.foldl_cons, List.foldl_nil]

/-- The selected index is minimal for the key, is below `n`, and strictly
beats (for the key) every index before it: Python's `min` keeps the earliest
occurrence of the minimum. -/
theorem argminUpTo_spec (key : ℕ → ℚ) :
    ∀ n : ℕ,
      (∀ k < n, key (argminUpTo key n) ≤ key k) ∧
      (∀ k < argminUpTo key n, key (argminUpTo key n) < key k) ∧
      argminUpTo key n ≤ n ∧ (0 < n → argminUpTo key n < n) := by
  intro n
  induction n with
  | zero => exact ⟨fun k hk => absurd hk (Nat.not_lt_zero k), fun k hk => by
      simp [argminUpTo] at hk, le_refl 0, fun h => absurd h (lt_irrefl 0)⟩
  | succ n ih =>
    obtain ⟨hmin, hfirst, hle, hlt⟩ := ih
    rw [argminUpTo_succ]
    by_cases hn : key n < key (argminUpTo key n)
    · rw [if_pos hn]
      refine ⟨?_, ?_, Nat.le_succ_of_le (le_refl n), fun _ => Nat.lt_succ_self n⟩
      · intro k hk
        rcases Nat.lt_succ_iff_lt_or_eq.mp hk with hk' | rfl
        · exact le_trans hn.le (hmin k hk')
        · exact le_refl _
      · intro k hk
        exact lt_of_lt_of_le hn (hmin k hk)
    · rw [if_neg hn]
      push_neg at hn
      refine ⟨?_, hfirst, le_trans hle (Nat.le_succ n), fun _ => ?_⟩
      · intro k hk
        rcases Nat.lt_succ_iff_lt_or_eq.mp hk with hk' | rfl
        · exact hmin k hk'
        · exact hn
      · rcases Nat.eq_zero_or_pos n with rfl | hpos
        · simp [argminUpTo]
        · exact lt_trans (hlt hpos) (Nat.lt_succ_self n)

/-- Claim C2: the chosen index has minimum absolute difference from the
target, and whenever some index `k` is at least as close as the chosen one,
the chosen index is not past `k` — i.e. among equally close cumulative
distances the earliest index wins, and a higher index is never selected when
an equally close lower index exists. -/
theorem closest_index_min_tie_earlier
    (distances : List ℚ) (target : ℚ) (k : ℕ) (hk : k < distances.length) :
    |distances.getD (closest_index distances target) 0 - target| ≤
      |distances.getD k 0 - target| ∧
    (|distances.getD k 0 - target| ≤
        |distances.getD (closest_index distances target) 0 - target| →
      closest_index distances target ≤ k) := by
  obtain ⟨hmin, hfirst, -, -⟩ :=
    argminUpTo_spec (fun i => |distances.getD i 0 - target|) distances.length
  rw [closest_index_eq_argminUpTo]
  refine ⟨hmin k hk, fun hclose => ?_⟩
  by_contra hgt
  push_neg at hgt
  exact absurd (lt_of_lt_of_le (hfirst k hgt) hclose) (lt_irrefl _)

theorem closest_index_tie_witness :
    (|[(0 : ℚ), 10].getD (closest_index [0, 10] 5) 0 - 5| ≤
      |[(0 : ℚ), 10].getD 1 0 - 5| ∧
    (|[(0 : ℚ), 10].getD 1 0 - 5| ≤
        |[(0 : ℚ), 10].getD (closest_index [0, 10] 5) 0 - 5| →
      closest_index [0, 10] 5 ≤ 1)) :=
  closest_index_min_tie_earlier [0, 10] 5 1 (by decide)

/-- The number of loop iterations: with fuel to spare, one sample per target
`t, t + i, t + 2i, ...` strictly below `D`, i.e. `⌈(D - t) / i⌉` many. -/
theorem findLoop_length (coords : List Coord) (distances : List ℚ) (i D : ℚ)
    (hi : 0 < i) :
    ∀ (fuel : ℕ) (t : ℚ),
      (findLoop coords distances i D t fuel).length =
        min fuel (Int.toNat (Int.ceil ((D - t) / i))) := by
  intro fuel
  induction fuel with
  | zero => intro t; simp [findLoop]
  | succ n ih =>
    intro t
    by_cases ht : t < D
    · rw [findLoop, if_pos ht, List.length_cons, ih (t + i)]
      have hshift : (D - (t + i)) / i = (D - t) / i - 1 := by
        field_simp
        ring
      have hceil : Int.ceil ((D - (t + i)) / i) = Int.ceil ((D - t) / i) - 1 := by
        rw [hshift, show ((1 : ℚ)) = ((1 : ℤ) : ℚ) by norm_num, Int.ceil_sub_int]
      have hpos : 1 ≤ Int.ceil ((D - t) / i) := by
        have : (0 : ℚ) < (D - t) / i := div_pos (by linarith) hi
        exact Int.ceil_pos.mpr this
      omega
    · rw [findLoop, if_neg ht, List.length_nil]
      have : Int.ceil ((D - t) / i) ≤ 0 := by
        apply Int.ceil_le.mpr
        push_cast
        apply div_nonpos_of_nonpos_of_nonneg (by linarith) hi.le
      omega

/-- Claim C1: with a positive interval `i` and total distance `D` (the last
cumulative distance), the Sampler emits exactly as many points as there are
multiples of `i` strictly below `D`: for every positive `n`, the `n`-th
multiple is below `D` exactly when the output has at least `n` points; in
particular, when `D ≤ i` the output is empty. -/
theorem sampler_count_eq_multiples_below_total
    (coords : List Coord) (distances : List ℚ) (i : ℚ) (n : ℕ)
    (hi : 0 < i) (hc : coords ≠ []) (hd : distances ≠ [])
    (hlen : coords.length = distances.length) (hn : 0 < n) :
    (((n : ℚ) * i < distances.getLastD 0 ↔
        n ≤ (find_interval_points coords distances i).length)) ∧
    (distances.getLastD 0 ≤ i → find_interval_points coords distances i = []) := by
  have hguard : ¬(coords = [] ∨ distances = [] ∨ coords.length ≠ distances.length) := by
    push_neg
    exact ⟨hc, hd, hlen⟩
  have hlen2 : (find_interval_points coords distances i).length =
      Int.toNat (Int.ceil ((distances.getLastD 0 - i) / i)) := by
    rw [find_interval_points, if_neg hguard,
      findLoop_length coords distances i (distances.getLastD 0) hi]
    have hfit : Int.ceil ((distances.getLastD 0 - i) / i) ≤
        Int.ceil (distances.getLastD 0 / i) := by
      apply Int.ceil_le_ceil
      apply (div_le_div_iff_of_pos_right hi).mpr
      linarith
    unfold sampleFuel
    omega
  have hchar : ∀ m : ℕ,
      ((m : ℚ) * i < distances.getLastD 0 ↔
        (m : ℤ) ≤ Int.ceil ((distances.getLastD 0 - i) / i)) := by
    intro m
    rw [show ((m : ℤ)) = ((m : ℤ) - 1) + 1 by ring, Int.add_one_le_iff, Int.lt_ceil,
      lt_div_iff₀ hi]
    push_cast
    constructor
    · intro h; linarith
    · intro h; linarith
  constructor
  · rw [hlen2, hchar n]
    omega
  · intro hDi
    have h1 : ¬(((1 : ℕ) : ℚ) * i < distances.getLastD 0) := by
      push_cast
      linarith
    rw [hchar 1] at h1
    refine List.length_eq_zero.mp ?_
    rw [hlen2]
    omega

theorem sampler_count_witness :
    ((((1 : ℕ) : ℚ) * 50000 < [(0 : ℚ), 40000, 90000].getLastD 0 ↔
      (1 : ℕ) ≤
        (find_interval_points [(3, 4), (7, 9), (2, 2)] [0, 40000, 90000] 50000).length) ∧
    ([(0 : ℚ), 40000, 90000].getLastD 0 ≤ 50000 →
      find_interval_points [(3, 4), (7, 9), (2, 2)] [0, 40000, 90000] 50000 = [])) :=
  sampler_count_eq_multiples_below_total [(3, 4), (7, 9), (2, 2)] [0, 40000, 90000]
    50000 1 (by norm_num) (by simp) (by simp) rfl Nat.one_pos

/-- Claim C8: when the polyline library fails on every geometry string (a
malformed encoded polyline), `_decode_polyline` returns the empty coordinate
sequence instead of raising; the Sampler maps an empty coordinate sequence to
zero sample points; and the route query returns no places, which the agent
tool reports as status `"error"`. -/
theorem malformed_polyline_decodes_empty_and_errors
    (c : Collabs) (startPlace endPlace g : String) (interval_km : ℚ)
    (d : List ℚ)
    (hdec : ∀ s : String, ∃ m, c.decode s = .error m) :
    decode_polyline c.decode g = [] ∧
    find_interval_points [] d interval_km = [] ∧
    get_places_along_route c startPlace endPlace interval_km = [] ∧
    get_route_places_status c startPlace endPlace interval_km = "error" := by
  have hdecode : ∀ s : String, decode_polyline c.decode s = [] := by
    intro s
    obtain ⟨m, hm⟩ := hdec s
    rw [decode_polyline, hm]
  have hsampler : find_interval_points [] d interval_km = [] := by
    rw [find_interval_points, if_pos (Or.inl rfl)]
  have hplaces : get_places_along_route c startPlace endPlace interval_km = [] := by
    unfold get_places_along_route
    split
    · split
      · rfl
      · rename_i s heq
        rw [hdecode s]
        rfl
    · rfl
  refine ⟨hdecode g, hsampler, hplaces, ?_⟩
  rw [get_route_places_status, if_pos hplaces]

/-- Witness collaborators for the decode-failure scenario: geocoding and
routing succeed, but every geometry string is malformed. -/
def collabsEx : Collabs :=
  Collabs.mk (fun _ => some (3, 4)) (fun _ _ => some "geom")
    (fun _ => .error "malformed") (fun _ _ => 0) (fun _ => .noFeatures)

theorem malformed_polyline_witness :
    decode_polyline collabsEx.decode "geom" = [] ∧
    find_interval_points [] [0, 100] 50 = [] ∧
    get_places_along_route collabsEx "Tampere" "Rovaniemi" 50 = [] ∧
    get_route_places_status collabsEx "Tampere" "Rovaniemi" 50 = "error" :=
  malformed_polyline_decodes_empty_and_errors collabsEx "Tampere" "Rovaniemi"
    "geom" 50 [0, 100] (fun _ => ⟨"malformed", rfl⟩)

/-- Ghost projection of `findLoop` recording the `closest_index` selected at
each iteration instead of the emitted sample point. -/
def findLoopIdx (distances : List ℚ) (interval total : ℚ) : ℚ → ℕ → List ℕ
  | _, 0 => []
  | target, fuel + 1 =>
    if target < total then
      closest_index distances target ::
        findLoopIdx distances interval total (target + interval) fuel
    else []

/-- The indices `_find_interval_points` selects, in emission order (the same
guard and loop as `find_interval_points`, recording `closest_index` instead of
the point). -/
def sample_indices (coords : List Coord) (distances : List ℚ)
    (interval_meters : ℚ) : List ℕ :=
  if coords = [] ∨ distances = [] ∨ coords.length ≠ distances.length then []
  else
    findLoopIdx distances interval_meters (distances.getLastD 0) interval_meters
      (sampleFuel interval_meters (distances.getLastD 0))

/-- The cumulative distances the loop emits are exactly the distances at the
selected indices. -/
theorem findLoop_map_dist_eq (coords : List Coord) (distances : List ℚ)
    (i D : ℚ) :
    ∀ (fuel : ℕ) (t : ℚ),
      (findLoop coords distances i D t fuel).map (fun p => p.2.2) =
        (findLoopIdx distances i D t fuel).map (fun j => distances.getD j 0) := by
  intro fuel
  induction fuel with
  | zero => intro t; rfl
  | succ n ih =>
    intro t
    by_cases ht : t < D
    · rw [findLoop, findLoopIdx, if_pos ht, if_pos ht, List.map_cons, List.map_cons,
        ih (t + i)]
    · rw [findLoop, findLoopIdx, if_neg ht, if_neg ht]
      rfl

/-- In a sorted distance list, the value at an earlier index is not larger. -/
theorem sorted_getD_mono (distances : List ℚ) (hs : List.Sorted (· ≤ ·) distances)
    (a b : ℕ) (hab : a ≤ b) (hb : b < distances.length) :
    distances.getD a 0 ≤ distances.getD b 0 := by
  have ha : a < distances.length := lt_of_le_of_lt hab hb
  rcases lt_or_eq_of_le hab with hlt | rfl
  · rw [List.getD_eq_getElem distances 0 ha, List.getD_eq_getElem distances 0 hb]
    exact List.pairwise_iff_get.mp hs ⟨a, ha⟩ ⟨b, hb⟩ hlt
  · exact le_refl _

/-- The nearest-index search is monotone in the target: a later target never
selects an earlier index (first-occurrence tie-breaking included). -/
theorem closest_index_mono (distances : List ℚ) (hs : List.Sorted (· ≤ ·) distances)
    (hne : distances ≠ []) (t s : ℚ) (hts : t ≤ s) :
    closest_index distances t ≤ closest_index distances s := by
  have hlen : 0 < distances.length := List.length_pos.mpr hne
  by_contra hgt
  push_neg at hgt
  obtain ⟨hmin_s, -, -, -⟩ :=
    argminUpTo_spec (fun k => |distances.getD k 0 - s|) distances.length
  obtain ⟨-, hfirst_t, -, hlt_t⟩ :=
    argminUpTo_spec (fun k => |distances.getD k 0 - t|) distances.length
  rw [closest_index_eq_argminUpTo distances t, closest_index_eq_argminUpTo distances s]
    at hgt
  have hjt_lt : argminUpTo (fun k => |distances.getD k 0 - t|) distances.length <
      distances.length := hlt_t hlen
  have h1 : |distances.getD
        (argminUpTo (fun k => |distances.getD k 0 - t|) distances.length) 0 - t| <
      |distances.getD
        (argminUpTo (fun k => |distances.getD k 0 - s|) distances.length) 0 - t| :=
    hfirst_t _ hgt
  have h2 : |distances.getD
        (argminUpTo (fun k => |distances.getD k 0 - s|) distances.length) 0 - s| ≤
      |distances.getD
        (argminUpTo (fun k => |distances.getD k 0 - t|) distances.length) 0 - s| :=
    hmin_s _ hjt_lt
  have hab : distances.getD
        (argminUpTo (fun k => |distances.getD k 0 - s|) distances.length) 0 ≤
      distances.getD
        (argminUpTo (fun k => |distances.getD k 0 - t|) distances.length) 0 :=
    sorted_getD_mono distances hs _ _ (le_of_lt hgt) hjt_lt
  set a := distances.getD
    (argminUpTo (fun k => |distances.getD k 0 - s|) distances.length) 0 with ha
  set b := distances.getD
    (argminUpTo (fun k => |distances.getD k 0 - t|) distances.length) 0 with hb
  have s1 : (b - t) ^ 2 < (a - t) ^ 2 := by
    have := pow_lt_pow_left₀ h1 (abs_nonneg (b - t)) (two_ne_zero)
    rwa [sq_abs, sq_abs] at this
  have s2 : (a - s) ^ 2 ≤ (b - s) ^ 2 := by
    have := pow_le_pow_left₀ (abs_nonneg (a - s)) h2 2
    rwa [sq_abs, sq_abs] at this
  nlinarith [mul_nonneg (sub_nonneg.mpr hab) (sub_nonneg.mpr hts)]

/-- The head of the index loop, when present, is the index chosen for the
current target. -/
theorem findLoopIdx_head (distances : List ℚ) (i D : ℚ) (fuel : ℕ) (t : ℚ)
    (y : ℕ) (hy : y ∈ (findLoopIdx distances i D t fuel).head?) :
    y = closest_index distances t := by
  cases fuel with
  | zero => simp [findLoopIdx] at hy
  | succ m =>
    by_cases ht : t < D
    · rw [findLoopIdx, if_pos ht] at hy
      simp at hy
      exact hy.symm
    · rw [findLoopIdx, if_neg ht] at hy
      simp at hy

/-- Along the loop, both the selected indices and the distances at those
indices are adjacent-wise non-decreasing. -/
theorem findLoopIdx_chain (distances : List ℚ) (hs : List.Sorted (· ≤ ·) distances)
    (hne : distances ≠ []) (i D : ℚ) (hi : 0 ≤ i) :
    ∀ (fuel : ℕ) (t : ℚ),
      List.Chain' (fun a b => a ≤ b ∧ distances.getD a 0 ≤ distances.getD b 0)
        (findLoopIdx distances i D t fuel) := by
  have hlen : 0 < distances.length := List.length_pos.mpr hne
  intro fuel
  induction fuel with
  | zero => intro t; exact List.chain'_nil
  | succ n ih =>
    intro t
    rw [findLoopIdx]
    by_cases ht : t < D
    · rw [if_pos ht]
      refine List.chain'_cons'.mpr ⟨?_, ih (t + i)⟩
      intro y hy
      rw [findLoopIdx_head distances i D n (t + i) y hy]
      have hmono : closest_index distances t ≤ closest_index distances (t + i) :=
        closest_index_mono distances hs hne t (t + i) (by linarith)
      refine ⟨hmono, sorted_getD_mono distances hs _ _ hmono ?_⟩
      rw [closest_index_eq_argminUpTo]
      exact (argminUpTo_spec _ distances.length).2.2.2 hlen
    · rw [if_neg ht]
      exact List.chain'_nil

/-- Claim C9: with a non-decreasing DistanceSequence and a positive interval,
the Sampler's output is in route traversal order — the selected indices are
monotonically non-decreasing, and so are the emitted cumulative distances. -/
theorem sampler_output_in_route_order
    (coords : List Coord) (distances : List ℚ) (i : ℚ)
    (hs : List.Sorted (· ≤ ·) distances) (hi : 0 < i) :
    List.Chain' (· ≤ ·) (sample_indices coords distances i) ∧
    List.Chain' (· ≤ ·)
      ((find_interval_points coords distances i).map (fun p => p.2.2)) := by
  by_cases hg : coords = [] ∨ distances = [] ∨ coords.length ≠ distances.length
  · rw [sample_indices, if_pos hg, find_interval_points, if_pos hg]
    exact ⟨List.chain'_nil, List.chain'_nil⟩
  · have hne : distances ≠ [] := by
      push_neg at hg
      exact hg.2.1
    rw [sample_indices, if_neg hg, find_interval_points, if_neg hg]
    have hchain := findLoopIdx_chain distances hs hne i (distances.getLastD 0) hi.le
      (sampleFuel i (distances.getLastD 0)) i
    constructor
    · exact List.Chain'.imp (fun a b h => h.1) hchain
    · rw [findLoop_map_dist_eq, List.chain'_map]
      exact List.Chain'.imp (fun a b h => h.2) hchain

theorem sampler_order_witness :
    List.Chain' (· ≤ ·)
      (sample_indices [(3, 4), (7, 9), (2, 2)] [0, 40000, 90000] 30000) ∧
    List.Chain' (· ≤ ·)
      ((find_interval_points [(3, 4), (7, 9), (2, 2)] [0, 40000, 90000] 30000).map
        (fun p => p.2.2)) :=
  sampler_output_in_route_order [(3, 4), (7, 9), (2, 2)] [0, 40000, 90000] 30000
    (by norm_num [List.sorted_cons]) (by norm_num)

/-- Half-even rounding moves a value by less than one unit. -/
theorem roundHalfEven_bounds (q : ℚ) :
    Int.floor q ≤ roundHalfEven q ∧ roundHalfEven q ≤ Int.floor q + 1 := by
  unfold roundHalfEven
  split_ifs <;> omega

/-- Half-even rounding is monotone. -/
theorem roundHalfEven_mono {q r : ℚ} (h : q ≤ r) :
    roundHalfEven q ≤ roundHalfEven r := by
  have hf : Int.floor q ≤ Int.floor r := Int.floor_mono h
  rcases lt_or_eq_of_le hf with hlt | heq
  · have h1 := roundHalfEven_bounds q
    have h2 := roundHalfEven_bounds r
    omega
  · unfold roundHalfEven
    rw [← heq]
    split_ifs <;> first | omega | (exfalso; linarith)

/-- `round(x, 1)` is monotone. -/
theorem round1_mono {q r : ℚ} (h : q ≤ r) : round1 q ≤ round1 r := by
  unfold round1
  apply (div_le_div_iff_of_pos_right (by norm_num : (0 : ℚ) < 10)).mpr
  exact_mod_cast roundHalfEven_mono
    (mul_le_mul_of_nonneg_right h (by norm_num : (0 : ℚ) ≤ 10))

/-- Python's `min(temps)` is at most the first element. -/
theorem foldl_min_le_init (l : List ℚ) : ∀ t : ℚ, l.foldl min t ≤ t := by
  induction l with
  | nil => intro t; exact le_refl t
  | cons a l ih => intro t; exact le_trans (ih (min t a)) (min_le_left t a)

/-- Python's `max(temps)` is at least the first element. -/
theorem init_le_foldl_max (l : List ℚ) : ∀ t : ℚ, t ≤ l.foldl max t := by
  induction l with
  | nil => intro t; exact le_refl t
  | cons a l ih => intro t; exact le_trans (le_max_left t a) (ih (max t a))

/-- Keys survive `filterMap` as a sublist when the mapped entry keeps its
key in the first component. -/
theorem map_fst_filterMap_sublist (f : ℤ → Option (ℤ × ℚ × ℚ))
    (hf : ∀ d p, f d = some p → p.1 = d) :
    ∀ l : List ℤ, ((l.filterMap f).map Prod.fst).Sublist l := by
  intro l
  induction l with
  | nil => simp
  | cons a l ih =>
    cases hfa : f a with
    | none =>
      rw [List.filterMap_cons_none hfa]
      exact ih.cons a
    | some p =>
      rw [List.filterMap_cons_some hfa, List.map_cons, hf a p hfa]
      exact ih.cons₂ a

/-- Claim C10: the daily summaries are ordered by ascending date, and every
summary's minimum temperature is at most its maximum temperature. -/
theorem weather_summaries_sorted_and_min_le_max (ps : List Period) :
    List.Sorted (· ≤ ·) ((parse_daily_summaries ps).map Prod.fst) ∧
    ∀ e ∈ parse_daily_summaries ps, e.2.1 ≤ e.2.2 := by
  constructor
  · have hsorted : List.Sorted (· ≤ ·) (List.insertionSort (· ≤ ·) (dayKeys ps)) :=
      List.sorted_insertionSort (· ≤ ·) (dayKeys ps)
    unfold parse_daily_summaries
    refine List.Pairwise.sublist ?_ hsorted
    apply map_fst_filterMap_sublist
    intro d p hp
    simp only at hp
    split at hp
    · exact absurd hp (by simp)
    · exact (Option.some.inj hp) ▸ rfl
  · intro e he
    unfold parse_daily_summaries at he
    rw [List.mem_filterMap] at he
    obtain ⟨d, -, hfd⟩ := he
    split at hfd
    · exact absurd hfd (by simp)
    · rename_i t ts hts
      obtain rfl := Option.some.inj hfd
      exact round1_mono (le_trans (foldl_min_le_init ts t) (init_le_foldl_max ts t))

theorem interval_zero_loop_witness :
    (findLoop [((0 : ℚ), (0 : ℚ)), (1, 1)] [0, 100] 0 100 0 5).length = 5 :=
  interval_zero_loops_forever 5

theorem places_degrade_witness :
    placesLoop rgEx [((3 : ℚ), (4 : ℚ), (0 : ℚ))] = placesLoop rgEx [] :=
  (places_degrade_per_point rgEx 3 4 0 [] none none none none).2.1
    (by rw [show rgEx (3, 4) = .failure from if_pos rfl]; rfl)

/-- Witness forecast response: one period on day `0` with temperature `5`. -/
def psEx : List Period := [Period.mk (some 100) (some 5) "clear sky"]

theorem weather_summary_witness :
    ((0 : ℤ), round1 5, round1 5).2.1 ≤ ((0 : ℤ), round1 5, round1 5).2.2 :=
  (weather_summaries_sorted_and_min_le_max psEx).2 (0, round1 5, round1 5)
    (List.Mem.head _)

end Roadtrippy
